import Mathlib

/-!
Verification of the job-scraper extraction engine (src/main.py).

The file shallowly embeds the pure extraction/normalization core of the two
scrapers (`ignitis_scraper`, `epsog_scraper`): Python strings are Lean
`String` (code points), fetched documents are an explicit document tree
(`Node`), a fetch that raises is `none`, and the per-item loop is a
structural recursion that also emits the trace of fetch/sleep events.
Python string primitives (`strip`, `split`, `islower`, `lower`,
`capitalize`, `replace`, slicing) are modelled over the character
repertoire the program uses (ASCII plus the Lithuanian letters appearing
in its data).
-/

/-- Model of the whitespace class used by Python `strip` / `split()` and by
the regex class `\s` (space, tab, newline, carriage return, vertical tab,
form feed). -/
def pyIsSpace (c : Char) : Bool :=
  c == ' ' || c == '\t' || c == '\n' || c == '\r' || c.toNat == 11 || c.toNat == 12

/-- Python `str.strip()`: drop leading and trailing whitespace. -/
def pyStrip (s : String) : String :=
  ((s.toList.dropWhile pyIsSpace).reverse.dropWhile pyIsSpace).reverse.asString

/-- Split a character list at every character satisfying `p`; the pieces
between separators are kept, empty pieces included. -/
def splitBy (p : Char → Bool) : List Char → List (List Char)
  | [] => [[]]
  | c :: rest =>
    if p c then [] :: splitBy p rest
    else
      match splitBy p rest with
      | [] => [[c]]
      | h :: t => (c :: h) :: t

/-- Python `str.split()` with no argument: split on whitespace runs,
dropping empty pieces. -/
def pySplitWs (s : String) : List String :=
  ((splitBy pyIsSpace s.toList).map List.asString).filter (fun t => t != "")

/-- Lithuanian lowercase letters appearing in the program's data. -/
def lithLowerChars : List Char := ['ą', 'č', 'ę', 'ė', 'į', 'š', 'ų', 'ū', 'ž']

/-- Lithuanian uppercase letters appearing in the program's data. -/
def lithUpperChars : List Char := ['Ą', 'Č', 'Ę', 'Ė', 'Į', 'Š', 'Ų', 'Ū', 'Ž']

/-- Cased-and-lowercase test for the modelled repertoire (ASCII a-z plus
Lithuanian lowercase letters). -/
def isCasedLower (c : Char) : Bool :=
  decide (97 ≤ c.toNat ∧ c.toNat ≤ 122) || lithLowerChars.contains c

/-- Cased-and-uppercase test for the modelled repertoire (ASCII A-Z plus
Lithuanian uppercase letters); this is also exactly the regex class
`[A-ZĄČĘĖĮŠŲŪŽ]` of the department pattern. -/
def isCasedUpper (c : Char) : Bool :=
  decide (65 ≤ c.toNat ∧ c.toNat ≤ 90) || lithUpperChars.contains c

/-- Python `str.islower()`: at least one cased character and no cased
character is uppercase. -/
def pyIsLower (s : String) : Bool :=
  (s.toList.any (fun c => isCasedLower c || isCasedUpper c))
    && (s.toList.all (fun c => !isCasedUpper c))

/-- Python `str.lower()` on one character (modelled repertoire). -/
def pyLowerChar (c : Char) : Char :=
  if c == 'Ą' then 'ą' else if c == 'Č' then 'č' else if c == 'Ę' then 'ę'
  else if c == 'Ė' then 'ė' else if c == 'Į' then 'į' else if c == 'Š' then 'š'
  else if c == 'Ų' then 'ų' else if c == 'Ū' then 'ū' else if c == 'Ž' then 'ž'
  else if 65 ≤ c.toNat ∧ c.toNat ≤ 90 then Char.ofNat (c.toNat + 32) else c

/-- Python `str.upper()` on one character (modelled repertoire). -/
def pyUpperChar (c : Char) : Char :=
  if c == 'ą' then 'Ą' else if c == 'č' then 'Č' else if c == 'ę' then 'Ę'
  else if c == 'ė' then 'Ė' else if c == 'į' then 'Į' else if c == 'š' then 'Š'
  else if c == 'ų' then 'Ų' else if c == 'ū' then 'Ū' else if c == 'ž' then 'Ž'
  else if 97 ≤ c.toNat ∧ c.toNat ≤ 122 then Char.ofNat (c.toNat - 32) else c

/-- Python `str.lower()`. -/
def pyLower (s : String) : String := (s.toList.map pyLowerChar).asString

/-- Python `str.capitalize()`: first character uppercased, rest lowercased. -/
def pyCapitalize (s : String) : String :=
  match s.toList with
  | [] => ""
  | c :: rest => (pyUpperChar c :: rest.map pyLowerChar).asString

/-- Python slicing `s[:n]` by code points. -/
def pyTake (n : Nat) (s : String) : String := (s.toList.take n).asString

/-- Boolean test that the first list starts the second. -/
def isPre : List Char → List Char → Bool
  | [], _ => true
  | _ :: _, [] => false
  | a :: as, b :: bs => a == b && isPre as bs

/-- Boolean test that `needle` occurs somewhere in `hay`. -/
def isSub (needle : List Char) : List Char → Bool
  | [] => isPre needle []
  | c :: rest => isPre needle (c :: rest) || isSub needle rest

/-- Python `needle in hay` on strings (substring containment). -/
def containsSub (hay needle : String) : Bool := isSub needle.toList hay.toList

/-- Case-insensitive (ASCII) version of `isPre`, for `re.IGNORECASE`. -/
def ciPre : List Char → List Char → Bool
  | [], _ => true
  | _ :: _, [] => false
  | a :: as, b :: bs => pyLowerChar a == pyLowerChar b && ciPre as bs

/-- Leftmost-match driver for `re.search`: try the pattern body at every
start position, left to right; the first position where it matches wins. -/
def scanPositions (f : List Char → Option String) : List Char → Option String
  | [] => f []
  | c :: rest =>
    match f (c :: rest) with
    | some r => some r
    | none => scanPositions f rest

/-- Python `str.replace(pat, rep)` over character lists: replace every
non-overlapping occurrence, scanning left to right. The `skip` counter
drops the remaining characters of a just-replaced occurrence (the program
only uses a non-empty pattern). -/
def replaceAux (pat rep : List Char) : Nat → List Char → List Char
  | _, [] => []
  | Nat.succ skip, _ :: rest => replaceAux pat rep skip rest
  | 0, c :: rest =>
    if isPre pat (c :: rest) = true then
      rep ++ replaceAux pat rep (pat.length - 1) rest
    else c :: replaceAux pat rep 0 rest

/-- Python `str.replace` on strings. -/
def pyReplace (s pat rep : String) : String :=
  (replaceAux pat.toList rep.toList 0 s.toList).asString

/-! ## ignitis_scraper (src/main.py lines 7-91) -/

/-- Record produced by `ignitis_scraper` (the `job_data` dict); a field
that Python leaves as `None` or never sets is `none`. -/
structure IgnitisJob where
  url : String
  title : Option String
  company_tag : Option String
  location : Option String
  work_type : Option String
  salary : Option String
deriving DecidableEq, Repr

/-- Lines 43: `parts = [part.strip() for part in link_text.split('|') if part.strip()]`. -/
def segmentParts (link_text : String) : List String :=
  ((splitBy (fun c => c == '|') link_text.toList).map
    (fun l => pyStrip l.asString)).filter (fun t => t != "")

/-- Lines 50-58: classify `parts[0]` into `(company_tag, title)`; the first
whitespace token is taken as the tag when `islower()` holds and it has at
most 4 characters. An empty word list (impossible for a non-empty stripped
part) leaves both unset, as the Python `if words:` does. -/
def classifyFirstPart (first_part : String) : Option String × Option String :=
  match pySplitWs first_part with
  | [] => (none, none)
  | w :: ws =>
    if pyIsLower w = true ∧ w.length ≤ 4
    then (some w, some (String.intercalate " " ws))
    else (none, some first_part)

/-- Tag/title of the whole parts list (lines 46-58): nothing is set when
`parts` is empty. -/
def ignitisTagTitle : List String → Option String × Option String
  | [] => (none, none)
  | first :: _ => classifyFirstPart first

/-- Lines 65-69: scan `parts[3:]` for the first segment containing
`'Atlyginimas'` or `'€'`; strip the label from it. -/
def findIgnitisSalary : List String → Option String
  | [] => none
  | p :: rest =>
    if containsSub p "Atlyginimas" || containsSub p "€"
    then some (pyStrip (pyReplace p "Atlyginimas" ""))
    else findIgnitisSalary rest

/-- Lines 36-69: assemble the `job_data` record of one anchor from its
`href` and its flattened text. -/
def ignitisAssemble (href link_text : String) : IgnitisJob :=
  { url := pyStrip href
    title := (ignitisTagTitle (segmentParts link_text)).2
    company_tag := (ignitisTagTitle (segmentParts link_text)).1
    location := (segmentParts link_text)[1]?
    work_type := (segmentParts link_text)[2]?
    salary := findIgnitisSalary ((segmentParts link_text).drop 3) }

/-- Python truthiness of `job_data.get(key)` for an optional string. -/
def pyTruthyOpt : Option String → Bool
  | none => false
  | some s => s != ""

/-- Lines 36-73: one loop iteration; the record enters `jobs` only when
`job_data.get('title')` and `job_data.get('url')` are both truthy. -/
def ignitisParseLink (href link_text : String) : Option IgnitisJob :=
  if pyTruthyOpt (ignitisAssemble href link_text).title = true
      ∧ (ignitisAssemble href link_text).url ≠ ""
  then some (ignitisAssemble href link_text)
  else none

/-- The `jobs` list before de-duplication (lines 35-73), from the
discovered anchors given as (href, flattened text) pairs. -/
def ignitisAccepted (links : List (String × String)) : List IgnitisJob :=
  links.filterMap (fun pr => ignitisParseLink pr.1 pr.2)

/-- Lines 76-81: de-duplicate by url with a seen set, first occurrence
wins, order preserved. -/
def dedupByUrlAux : List IgnitisJob → List String → List IgnitisJob
  | [], _ => []
  | j :: rest, seen =>
    if j.url ∈ seen then dedupByUrlAux rest seen
    else j :: dedupByUrlAux rest (j.url :: seen)

/-- The result collection of `ignitis_scraper` as a function of the
discovered anchors (lines 35-84). -/
def ignitisScraperCore (links : List (String × String)) : List IgnitisJob :=
  dedupByUrlAux (ignitisAccepted links) []

/-! ## epsog_scraper location extraction (src/main.py lines 187-217) -/

/-- Lines 189-196: the gazetteer of Lithuanian city names, in source
order. -/
def lithuanianCities : List String :=
  ["Vilnius", "Kaunas", "Klaipėda", "Šiauliai", "Panevėžys", "Alytus",
   "Marijampolė", "Mažeikiai", "Jonava", "Utena", "Kėdainiai", "Telšiai",
   "Tauragė", "Ukmergė", "Visaginas", "Plungė", "Kretinga", "Palanga",
   "Šilutė", "Radviliškis", "Rokiškis", "Biržai", "Gargždai", "Kupiškis",
   "Elektrėnai", "Jurbarkas", "Garliava", "Vilkaviškis", "Raseiniai",
   "Anykščiai", "Lentvaris", "Grigiškės", "Prienai", "Joniškis", "Kelmė",
   "Varėna", "Kaišiadorys", "Pasvalys", "Kuršėnai", "Molėtai", "Naujoji Akmenė",
   "Šakiai", "Skuodas", "Zarasai", "Širvintos", "Pakruojis", "Ignalina"]

/-- Lines 199-202: first gazetteer city (in list order) contained in the
page text. -/
def findTextLocation (page_text : String) : Option String :=
  lithuanianCities.find? (fun city => containsSub page_text city)

/-- Line 206: the alternatives of the URL regex
`-(vilniuje|kaune|...)`, in pattern order. -/
def slugAlts : List String :=
  ["vilniuje", "kaune", "klaipedoje", "siauliuose", "panevezyje", "alytu",
   "marijampoleje", "mazeikiuose", "jonavoje", "utenoje", "kedainiuose",
   "telsiuose", "taurageje", "ukmerge", "visagine", "plungeje", "kretingoje",
   "palangoje", "siluteje", "radviliskyje", "rokiskyje", "birzuose",
   "gargzduose", "kupiskyje", "elektrenuse", "jurbarke", "garliavoje",
   "vilkaviskyje", "raseinuose", "anyksciuose", "lentvaryje", "grigiskese",
   "prienuose", "joniskyje", "kelmeje", "varenoje", "kaisiadoruose",
   "pasvalyje", "kursenuose", "moletuose", "naujoje-akmene", "sakiuose",
   "skuode", "zarasuose", "sirvintose", "pakruojyje", "ignalina"]

/-- One position of the URL regex: a hyphen followed by one of the slug
alternatives (tried in pattern order). -/
def slugPos (l : List Char) : Option String :=
  match l with
  | '-' :: rest => slugAlts.find? (fun a => isPre a.toList rest)
  | _ => none

/-- Line 206: `re.search` of the slug pattern over a character list;
leftmost position wins, alternatives in pattern order at that position. -/
def regexFindSlug (l : List Char) : Option String := scanPositions slugPos l

/-- Lines 209-215: the slug-to-canonical-city-name table `city_map`. -/
def cityMap : String → Option String
  | "vilniuje" => some "Vilnius"
  | "kaune" => some "Kaunas"
  | "klaipedoje" => some "Klaipėda"
  | "siauliuose" => some "Šiauliai"
  | "panevezyje" => some "Panevėžys"
  | "marijampoleje" => some "Marijampolė"
  | "telsiuose" => some "Telšiai"
  | "rokiskyje" => some "Rokiškis"
  | "kupiskyje" => some "Kupiškis"
  | "vilkaviskyje" => some "Vilkaviškis"
  | "pasvalyje" => some "Pasvalys"
  | "moletuose" => some "Molėtai"
  | "ignalina" => some "Ignalina"
  | "plungeje" => some "Plungė"
  | _ => none

/-- Line 206: the slug regex search applied to the lowercased URL. -/
def urlSlug (job_url : String) : Option String :=
  regexFindSlug (pyLower job_url).toList

/-- Lines 204-217: URL fallback: search the lowercased URL for the slug
pattern; map the matched slug through `city_map`, defaulting to
`slug.capitalize()`. -/
def findUrlLocation (job_url : String) : Option String :=
  match urlSlug job_url with
  | none => none
  | some s => some ((cityMap s).getD (pyCapitalize s))

/-- Lines 198-217: full location resolution of one detail page: gazetteer
scan of the page text first, URL fallback when it finds nothing. -/
def epsogLocation (page_text job_url : String) : Option String :=
  match findTextLocation page_text with
  | some c => some c
  | none => findUrlLocation job_url

/-! ## Document tree model (BeautifulSoup fragment used by epsog_scraper) -/

/-- Parsed document tree: a text node (NavigableString) or an element with
a tag name, a class list and children in document order. -/
inductive Node where
  | text : String → Node
  | elem : String → List String → List Node → Node

mutual
/-- All text strings of the tree in document order (`get_text` source). -/
def Node.texts : Node → List String
  | Node.text s => [s]
  | Node.elem _ _ cs => textsList cs
/-- Text strings of a forest in document order. -/
def textsList : List Node → List String
  | [] => []
  | n :: ns => n.texts ++ textsList ns
end

/-- BeautifulSoup `get_text()` with no arguments: concatenation of all
strings. -/
def getText (n : Node) : String := String.join n.texts

/-- BeautifulSoup `get_text(strip=True)`: each string stripped,
whitespace-only strings dropped, concatenated. -/
def getTextStrip (n : Node) : String :=
  String.join ((n.texts.map pyStrip).filter (fun t => t != ""))

/-- BeautifulSoup `get_text(separator='|', strip=True)` (ignitis anchors):
stripped non-empty strings joined with `'|'`. -/
def getTextBar (n : Node) : String :=
  String.intercalate "|" ((n.texts.map pyStrip).filter (fun t => t != ""))

mutual
/-- BeautifulSoup `find` over tags: first element in document order whose
tag name and class list satisfy the predicate. -/
def findElemD (p : String → List String → Bool) : Node → Option Node
  | Node.text _ => none
  | Node.elem t c cs =>
    if p t c = true then some (Node.elem t c cs) else findElemDL p cs
/-- `findElemD` over a forest. -/
def findElemDL (p : String → List String → Bool) : List Node → Option Node
  | [] => none
  | n :: ns =>
    match findElemD p n with
    | some e => some e
    | none => findElemDL p ns
end

mutual
/-- BeautifulSoup `find_all` over tags: every matching element in document
order. -/
def allElems (p : String → List String → Bool) : Node → List Node
  | Node.text _ => []
  | Node.elem t c cs =>
    (if p t c = true then [Node.elem t c cs] else []) ++ allElemsL p cs
/-- `allElems` over a forest. -/
def allElemsL (p : String → List String → Bool) : List Node → List Node
  | [] => []
  | n :: ns => allElems p n ++ allElemsL p ns
end

mutual
/-- Flatten a tree to document order, labelling every node with its path
of child indices (paths identify node occurrences). -/
def flat (path : List Nat) : Node → List (List Nat × Node)
  | Node.text s => [(path, Node.text s)]
  | Node.elem t c cs => (path, Node.elem t c cs) :: flatL path 0 cs
/-- `flat` over a forest starting at child index `i`. -/
def flatL (path : List Nat) (i : Nat) : List Node → List (List Nat × Node)
  | [] => []
  | n :: ns => flat (path ++ [i]) n ++ flatL path (i + 1) ns
end

/-- Equality test of a node against the text string `h`
(BeautifulSoup `find(string=h)`). -/
def textEq (h : String) : Node → Bool
  | Node.text s => s == h
  | _ => false

/-- Keep a node only if it is an element (tags are what a no-argument
`find_next` returns). -/
def isElemNode : Node → Option Node
  | Node.elem t c cs => some (Node.elem t c cs)
  | _ => none

/-- Lines 230-233: `soup.find(string=heading)`, then `elem.parent`, then
`parent.find_next()`: locate the first text node equal to `h`, take its
parent element, and return the first element strictly after that parent in
document order (`none` when any step fails). -/
def sectionNextElem (doc : Node) (h : String) : Option Node :=
  match (flat [] doc).find? (fun e => textEq h e.2) with
  | none => none
  | some (p, _) =>
    if p = [] then none
    else
      match (flat [] doc).findIdx? (fun e => e.1 == p.dropLast) with
      | none => none
      | some j => ((flat [] doc).drop (j + 1)).findSome? (fun e => isElemNode e.2)

/-! ## epsog_scraper field extraction (src/main.py lines 145-242) -/

/-- Lines 147-160: title from the first `h1` with class `job-title`, else
the first `h1` with non-empty stripped text, else absent. -/
def epsogTitle (doc : Node) : Option String :=
  match findElemD (fun t cls => t == "h1" && cls.contains "job-title") doc with
  | some e => some (getTextStrip e)
  | none =>
    (allElems (fun t _ => t == "h1") doc).findSome? (fun e =>
      if getTextStrip e = "" then none else some (getTextStrip e))

/-- Line 173: the work-type regex alternatives, in pattern order. -/
def workTypeAlts : List String :=
  ["Visa darbo diena", "Dalinis darbo laikas", "Full-time", "Part-time"]

/-- Lines 173-175: `re.search` of the work-type alternation over the page
text. -/
def findWorkType (page_text : String) : Option String :=
  scanPositions (fun l => workTypeAlts.find? (fun a => isPre a.toList l))
    page_text.toList

/-- Lazy `+?` body of the department patterns: consume characters of the
class one at a time, returning the accumulated group as soon as one of the
terminator literals (or end of text) follows; fail on a character outside
the class. -/
def lazyPlus (cls : Char → Bool) (terms : List String) (acc : List Char) :
    List Char → Option (List Char)
  | [] => none
  | c :: rest =>
    if cls c = true then
      if terms.any (fun t => isPre t.toList rest) || rest.isEmpty
      then some (acc ++ [c])
      else lazyPlus cls terms (acc ++ [c]) rest
    else none

/-- Body attempt of pattern `Darbo sritis/Job family:\s*([A-ZĄČĘĖĮŠŲŪŽ]
[a-ząčęėįšųūž\s]+?)(?:Bendrovės|$)` at one start position: the literal,
then the greedy whitespace run (backtracking cannot help, as the group
head must be uppercase), then the group. -/
def deptPat1 (l : List Char) : Option String :=
  if isPre "Darbo sritis/Job family:".toList l = true then
    match (l.drop 24).dropWhile pyIsSpace with
    | [] => none
    | c :: rest =>
      if isCasedUpper c = true then
        (lazyPlus (fun ch => isCasedLower ch || pyIsSpace ch) ["Bendrovės"]
          [c] rest).map List.asString
      else none
  else none

/-- Group attempt of the fallback pattern `([A-Za-z\s]+?)(?:\n|Bendrovės|$)`. -/
def deptPat2Group (r : List Char) : Option String :=
  (lazyPlus
      (fun ch =>
        decide (65 ≤ ch.toNat ∧ ch.toNat ≤ 90)
          || decide (97 ≤ ch.toNat ∧ ch.toNat ≤ 122) || pyIsSpace ch)
      ["\n", "Bendrovės"] [] r).map List.asString

/-- Greedy `\s*` with backtracking for the fallback pattern: try consuming
`n` whitespace characters, largest first. -/
def deptPat2Try (r : List Char) : Nat → Option String
  | 0 => deptPat2Group r
  | n + 1 =>
    match deptPat2Group (r.drop (n + 1)) with
    | some g => some g
    | none => deptPat2Try r n

/-- Body attempt of pattern `Job family:\s*([A-Za-z\s]+?)(?:\n|Bendrovės|$)`
at one start position. -/
def deptPat2 (l : List Char) : Option String :=
  if isPre "Job family:".toList l = true then
    deptPat2Try (l.drop 11) ((l.drop 11).takeWhile pyIsSpace).length
  else none

/-- Lines 178-185: department via the first pattern, else the fallback
pattern; the captured group is stripped. -/
def findDepartment (page_text : String) : Option String :=
  match scanPositions deptPat1 page_text.toList with
  | some g => some (pyStrip g)
  | none => (scanPositions deptPat2 page_text.toList).map pyStrip

/-- Tail of the salary pattern `atlygis\s+(\d+[–-]\d+\s*(?:EUR|€))`
(case-insensitive) after the literal: mandatory whitespace, then the
captured group (digits, dash, digits, optional whitespace, currency). -/
def salaryTail (r : List Char) : Option String :=
  if (r.takeWhile pyIsSpace).isEmpty then none
  else
    match (r.dropWhile pyIsSpace).takeWhile Char.isDigit,
        (r.dropWhile pyIsSpace).dropWhile Char.isDigit with
    | [], _ => none
    | d1, dash :: r3 =>
      if dash == '–' || dash == '-' then
        match r3.takeWhile Char.isDigit, r3.dropWhile Char.isDigit with
        | [], _ => none
        | d2, r4 =>
          if ciPre "EUR".toList (r4.dropWhile pyIsSpace) = true then
            some ((d1 ++ dash :: d2 ++ r4.takeWhile pyIsSpace
              ++ (r4.dropWhile pyIsSpace).take 3).asString)
          else if ciPre "€".toList (r4.dropWhile pyIsSpace) = true then
            some ((d1 ++ dash :: d2 ++ r4.takeWhile pyIsSpace
              ++ (r4.dropWhile pyIsSpace).take 1).asString)
          else none
      else none
    | _, [] => none

/-- Lines 223-225: `re.search` of the salary pattern, the captured group
stripped. -/
def findSalary (page_text : String) : Option String :=
  (scanPositions
      (fun l => if ciPre "atlygis".toList l = true then salaryTail (l.drop 7) else none)
      page_text.toList).map pyStrip

/-- Line 220: remote-work flag from case-insensitive substring checks. -/
def findRemote (page_text : String) : Bool :=
  containsSub (pyLower page_text) "nuotoliniu" || containsSub (pyLower page_text) "remote"

/-- Lines 229-237: the headings of the description sections. -/
def descHeadings : List String := ["Darbo aprašymas", "Reikalavimai"]

/-- Lines 230-237 for one heading: text of the element after the heading
string's parent, kept and truncated to 150 characters when non-empty and
longer than 20 characters. -/
def descFragOf (doc : Node) (h : String) : Option String :=
  match sectionNextElem doc h with
  | none => none
  | some e =>
    if getTextStrip e ≠ "" ∧ 20 < (getTextStrip e).length
    then some (pyTake 150 (getTextStrip e))
    else none

/-- Lines 228-237: the collected description fragments, in heading order. -/
def descFragments (doc : Node) : List String := descHeadings.filterMap (descFragOf doc)

/-- Lines 239-242: the fragments joined with `' | '`, absent when none. -/
def epsogDescription (doc : Node) : Option String :=
  if descFragments doc = [] then none
  else some (String.intercalate " | " (descFragments doc))

/-! ## epsog_scraper pipeline (src/main.py lines 94-262) -/

/-- Record produced by `epsog_scraper` for one detail page. -/
structure EpsogJob where
  url : String
  title : Option String
  location : Option String
  work_type : Option String
  department : Option String
  salary : Option String
  remote_work : Bool
  description : Option String
deriving DecidableEq, Repr

/-- Lines 145-242: field extraction for one successfully fetched detail
page: every field is computed independently from the parsed document and
the item URL. -/
def epsogExtract (doc : Node) (job_url : String) : EpsogJob :=
  { url := job_url
    title := epsogTitle doc
    location := epsogLocation (getText doc) job_url
    work_type := findWorkType (getText doc)
    department := findDepartment (getText doc)
    salary := findSalary (getText doc)
    remote_work := findRemote (getText doc)
    description := epsogDescription doc }

/-- Observable side effects of the detail loop: a detail-page fetch attempt
and the `time.sleep(0.5)` pacing delay. -/
inductive Event where
  | fetch : String → Event
  | sleep : Event
deriving DecidableEq, Repr

/-- Lines 136-252: the detail loop over the discovered URLs. Each item is
a URL paired with `some doc` (fetch and parse succeeded) or `none` (the
fetch raised and the `except` clause skips the item). A successful item
appends its record and then sleeps; a failing item emits only its fetch
attempt and continues. Returns the `jobs` list and the event trace. -/
def epsogLoop : List (String × Option Node) → List EpsogJob × List Event
  | [] => ([], [])
  | (u, none) :: rest =>
    ((epsogLoop rest).1, Event.fetch u :: (epsogLoop rest).2)
  | (u, some d) :: rest =>
    (epsogExtract d u :: (epsogLoop rest).1,
      Event.fetch u :: Event.sleep :: (epsogLoop rest).2)

/-- The result collection of the detail loop. -/
def epsogCore (items : List (String × Option Node)) : List EpsogJob :=
  (epsogLoop items).1

/-- The event trace of the detail loop. -/
def epsogTrace (items : List (String × Option Node)) : List Event :=
  (epsogLoop items).2

/-- Lines 125-131: de-duplicate the discovered hrefs: strip each, keep it
when non-empty and unseen; first occurrence wins, order preserved. -/
def dedupUrlsAux : List String → List String → List String
  | [], _ => []
  | h :: rest, seen =>
    if pyStrip h ≠ "" ∧ pyStrip h ∉ seen
    then pyStrip h :: dedupUrlsAux rest (pyStrip h :: seen)
    else dedupUrlsAux rest seen

/-- Lines 122-131: `unique_urls` as a function of the discovered anchor
hrefs. -/
def epsogDiscover (hrefs : List String) : List String := dedupUrlsAux hrefs []

/-- Lines 114-255: the result collection of `epsog_scraper` as a function
of the discovered hrefs and of the per-URL fetch outcome. -/
def epsogRun (hrefs : List String) (fetch : String → Option Node) : List EpsogJob :=
  epsogCore ((epsogDiscover hrefs).map (fun u => (u, fetch u)))

/-- Reference de-duplication following the claim's own words, independent
of the code's seen-set loop: keep each url's first record and drop every
later record carrying the same url, preserving order. The code's
de-duplication is proved equal to it. -/
def specDedupByUrl : List IgnitisJob → List IgnitisJob
  | [] => []
  | j :: rest => j :: specDedupByUrl (rest.filter (fun x => decide (x.url ≠ j.url)))
termination_by l => l.length
decreasing_by
  simp only [List.length_cons]
  exact Nat.lt_succ_of_le (List.length_filter_le _ _)

/-- Reference de-duplication of a url list following the claim's own
words: keep each url's first occurrence and drop every later occurrence,
preserving order. The code's discovery de-duplication is proved equal to
it. -/
def specDedupUrls : List String → List String
  | [] => []
  | u :: rest => u :: specDedupUrls (rest.filter (fun v => decide (v ≠ u)))
termination_by l => l.length
decreasing_by
  simp only [List.length_cons]
  exact Nat.lt_succ_of_le (List.length_filter_le _ _)

/-! ## Helper lemmas -/

/-- If the element at index `i` satisfies `p`, then `find?` returns some
element at an index at most `i`. -/
theorem find_first_of_getElem {α : Type} (p : α → Bool) :
    ∀ (l : List α) (i : Nat) (a : α), l[i]? = some a → p a = true →
      ∃ k b, k ≤ i ∧ l[k]? = some b ∧ p b = true ∧ l.find? p = some b := by
  intro l
  induction l with
  | nil => intro i a ha _; simp at ha
  | cons x t ih =>
    intro i a ha hp
    by_cases hx : p x = true
    · exact ⟨0, x, Nat.zero_le _, by simp, hx, by simp [List.find?_cons, hx]⟩
    · match i with
      | 0 =>
        rw [List.getElem?_cons_zero] at ha
        cases ha
        exact absurd hp hx
      | Nat.succ j =>
        rw [List.getElem?_cons_succ] at ha
        obtain ⟨k, b, hk, hkb, hpb, hf⟩ := ih j a ha hp
        exact ⟨k + 1, b, Nat.succ_le_succ hk, by simpa using hkb, hpb,
          by simp [List.find?_cons, hx, hf]⟩

/-- Distinct indices of a duplicate-free list hold distinct elements. -/
theorem nodup_getElem_ne {α : Type} :
    ∀ (l : List α), l.Nodup → ∀ (k j : Nat) (b c : α), k < j →
      l[k]? = some b → l[j]? = some c → b ≠ c := by
  intro l
  induction l with
  | nil => intro _ k j b c _ hb _; simp at hb
  | cons x t ih =>
    intro hnd k j b c hkj hb hc
    rw [List.nodup_cons] at hnd
    match k, j with
    | 0, Nat.succ j' =>
      rw [List.getElem?_cons_zero] at hb
      cases hb
      rw [List.getElem?_cons_succ] at hc
      obtain ⟨hlt, he⟩ := List.getElem?_eq_some.mp hc
      intro heq
      exact hnd.1 (heq ▸ he ▸ List.getElem_mem hlt)
    | Nat.succ k', Nat.succ j' =>
      rw [List.getElem?_cons_succ] at hb hc
      exact ih hnd.2 k' j' b c (by omega) hb hc
    | _, 0 => omega

/-! ## Claims -/

/-- C5: for every non-empty segment list produced by the anchor-text
segmenter (lines 42-58), if the first whitespace token of `parts[0]` is
all-lowercase (Python `islower()`) and at most 4 characters, the tag is
that token and the title is the remaining tokens joined by single spaces;
otherwise the tag is absent and the title is all of `parts[0]`. -/
theorem C5_segmenter (text p : String) (rest : List String)
    (_hp : segmentParts text = p :: rest) (w : String) (ws : List String)
    (hw : pySplitWs p = w :: ws) :
    (pyIsLower w = true ∧ w.length ≤ 4 →
      classifyFirstPart p = (some w, some (String.intercalate " " ws)))
    ∧ (¬(pyIsLower w = true ∧ w.length ≤ 4) →
      classifyFirstPart p = (none, some p)) := by
  constructor
  · intro h
    simp [classifyFirstPart, hw, h]
  · intro h
    simp [classifyFirstPart, hw, h]

/-- C5 witness: on the anchor text `"Senior Engineer|Vilnius"` the first
token is capitalized, so the tag is absent and the title is the whole
first part. -/
theorem C5_witness :
    classifyFirstPart "Senior Engineer" = (none, some "Senior Engineer") :=
  (C5_segmenter "Senior Engineer|Vilnius" "Senior Engineer" ["Vilnius"] (by decide)
    "Senior" ["Engineer"] (by decide)).2 (by decide)

/-- C6: the segmenter output on the anchor text
`"abc Engineer|Vilnius|Full-time|Atlyginimas 1500-2000€"`: tag `abc`,
title `Engineer`, location `Vilnius`, work type `Full-time`, and salary
`1500-2000€` with the label keyword stripped. -/
theorem C6_example :
    ignitisParseLink "https://ignitisgrupe.lt/darbo-skelbimai/job1"
        "abc Engineer|Vilnius|Full-time|Atlyginimas 1500-2000€"
      = some { url := "https://ignitisgrupe.lt/darbo-skelbimai/job1",
               title := some "Engineer", company_tag := some "abc",
               location := some "Vilnius", work_type := some "Full-time",
               salary := some "1500-2000€" } := by decide

/-- C7: when a page text contains gazetteer cities at positions `i < j` of
the gazetteer, the resolved location is a contained city at a gazetteer
position at most `i` — in particular not the later city `c2` — regardless
of where the names occur in the text; and a text containing both
`"Kaunas"` and `"Vilnius"` always resolves to `"Vilnius"` (the earlier
gazetteer entry). -/
theorem C7_gazetteer (text : String) :
    (∀ (i j : Nat) (c1 c2 : String), i < j →
      lithuanianCities[i]? = some c1 → lithuanianCities[j]? = some c2 →
      containsSub text c1 = true → containsSub text c2 = true →
      ∃ (k : Nat) (c : String), k ≤ i ∧ lithuanianCities[k]? = some c ∧
        containsSub text c = true ∧ findTextLocation text = some c ∧ c ≠ c2)
    ∧ (containsSub text "Kaunas" = true → containsSub text "Vilnius" = true →
      findTextLocation text = some "Vilnius") := by
  constructor
  · intro i j c1 c2 hij hi hj h1 _
    obtain ⟨k, b, hk, hkb, hpb, hf⟩ :=
      find_first_of_getElem (fun city => containsSub text city)
        lithuanianCities i c1 hi h1
    refine ⟨k, b, hk, hkb, hpb, hf, ?_⟩
    exact nodup_getElem_ne lithuanianCities (by decide) k j b c2 (by omega) hkb hj
  · intro _ hV
    simp only [findTextLocation, lithuanianCities, List.find?_cons, hV]

/-- C7 witness: a text where `"Kaunas"` occurs before `"Vilnius"` still
resolves to `"Vilnius"`. -/
theorem C7_witness :
    findTextLocation "Skelbiame darba Kaunas ir Vilnius miestuose" = some "Vilnius" :=
  (C7_gazetteer "Skelbiame darba Kaunas ir Vilnius miestuose").2 (by decide) (by decide)

/-- C10: gazetteer matching is case-sensitive — resolution succeeds only
through an exactly contained gazetteer name, a text with no exact match
resolves to none (a lowercase-only `"vilnius"` text in particular), and the
URL fallback lowercases the URL first, so an uppercase URL still maps its
slug (`-VILNIUJE-` resolves to `"Vilnius"`). -/
theorem C10_case_sensitive :
    (∀ text, (∀ c ∈ lithuanianCities, containsSub text c = false) →
      findTextLocation text = none)
    ∧ (∀ text c, findTextLocation text = some c →
      c ∈ lithuanianCities ∧ containsSub text c = true)
    ∧ findTextLocation "darbas vilnius mieste" = none
    ∧ epsogLocation "darbas vilnius mieste"
        "HTTPS://JOBS.SMARTRECRUITERS.COM/EPSOG/1-DARBAS-VILNIUJE-" = some "Vilnius" := by
  refine ⟨?_, ?_, by decide, by decide⟩
  · intro text h
    apply List.find?_eq_none.mpr
    intro x hx
    simp [h x hx]
  · intro text c hc
    exact ⟨List.mem_of_find?_eq_some hc, List.find?_some hc⟩

/-- C10 witness: a text containing no gazetteer name in canonical
capitalization yields no gazetteer match. -/
theorem C10_witness : findTextLocation "tekstas be miestu" = none :=
  C10_case_sensitive.1 "tekstas be miestu" (by decide)

/-- C8 counterexample: the code scans the whole lowercased URL, not the
last path segment, so a URL that ends in `-vilniuje-` but carries an
earlier slug (`-kaune` in the host) resolves to `"Kaunas"`, not
`"Vilnius"` as the claim requires. -/
theorem C8_counterexample :
    "https://epsog-kaune.lt/jobs/specialistas-vilniuje-"
        = "https://epsog-kaune.lt/jobs/specialistas" ++ "-vilniuje-"
      ∧ findTextLocation "" = none
      ∧ epsogLocation "" "https://epsog-kaune.lt/jobs/specialistas-vilniuje-" = some "Kaunas"
      ∧ ("Kaunas" : String) ≠ "Vilnius" :=
  ⟨rfl, by decide, by decide, by decide⟩

/-- C8 amended: with no gazetteer match, location falls back to scanning
the entire lowercased URL (not only the last path segment) for the
leftmost hyphen-preceded slug token; a matched slug is mapped through the
slug table, an unmapped slug is capitalized, and no match leaves location
absent. A URL whose only slug is a trailing `-vilniuje-` resolves to
`"Vilnius"`, and an unmapped `-jurbarke-` capitalizes to `"Jurbarke"`. -/
theorem C8_amended :
    (∀ text url, findTextLocation text = none →
      epsogLocation text url = findUrlLocation url)
    ∧ (∀ url s, urlSlug url = some s →
      findUrlLocation url = some ((cityMap s).getD (pyCapitalize s)))
    ∧ (∀ url, urlSlug url = none → findUrlLocation url = none)
    ∧ epsogLocation "jokio miesto tekste"
        "https://jobs.smartrecruiters.com/EPSOG/123-specialistas-vilniuje-" = some "Vilnius"
    ∧ findUrlLocation "https://x/inzinierius-jurbarke-" = some "Jurbarke" := by
  refine ⟨?_, ?_, ?_, by decide, by decide⟩
  · intro text url h
    simp [epsogLocation, h]
  · intro url s h
    simp [findUrlLocation, h]
  · intro url h
    simp [findUrlLocation, h]

/-- C8 witness: a page text with no gazetteer city falls back to the URL,
which resolves through the slug map. -/
theorem C8_witness :
    epsogLocation "jokio miesto" "https://x/y-vilniuje-" = some "Vilnius" :=
  (C8_amended.1 "jokio miesto" "https://x/y-vilniuje-" (by decide)).trans (by decide)

/-- The record of a successfully processed epsog item carries its item
URL. -/
theorem epsogExtract_url (d : Node) (u : String) : (epsogExtract d u).url = u := rfl

/-- Structural facts about the ignitis url de-duplication: the output is a
sublist of the input, its records' urls avoid the seen set, and its
url projection is duplicate-free. -/
theorem dedupByUrlAux_props :
    ∀ (l : List IgnitisJob) (seen : List String),
      List.Sublist (dedupByUrlAux l seen) l
      ∧ (∀ j ∈ dedupByUrlAux l seen, j.url ∉ seen)
      ∧ ((dedupByUrlAux l seen).map IgnitisJob.url).Nodup := by
  intro l
  induction l with
  | nil =>
    intro seen
    refine ⟨by simp [dedupByUrlAux], by simp [dedupByUrlAux], by simp [dedupByUrlAux]⟩
  | cons x t ih =>
    intro seen
    by_cases hx : x.url ∈ seen
    · simp only [dedupByUrlAux, if_pos hx]
      exact ⟨List.Sublist.cons x (ih seen).1, (ih seen).2.1, (ih seen).2.2⟩
    · simp only [dedupByUrlAux, if_neg hx]
      refine ⟨List.Sublist.cons₂ x (ih _).1, ?_, ?_⟩
      · intro j hj
        rcases List.mem_cons.mp hj with h | h
        · exact h ▸ hx
        · intro hs
          exact (ih (x.url :: seen)).2.1 j h (List.mem_cons_of_mem _ hs)
      · rw [List.map_cons, List.nodup_cons]
        constructor
        · intro hmem
          obtain ⟨j, hj, hju⟩ := List.mem_map.mp hmem
          exact (ih (x.url :: seen)).2.1 j hj (by rw [hju]; exact List.mem_cons_self _ _)
        · exact (ih _).2.2

/-- Every record of the de-duplicated list is the first record of the
input list carrying its url (first occurrence wins). -/
theorem dedupByUrlAux_first :
    ∀ (l : List IgnitisJob) (seen : List String) (j : IgnitisJob),
      j ∈ dedupByUrlAux l seen → l.find? (fun y => y.url == j.url) = some j := by
  intro l
  induction l with
  | nil => intro seen j hj; simp [dedupByUrlAux] at hj
  | cons x t ih =>
    intro seen j hj
    by_cases hx : x.url ∈ seen
    · simp only [dedupByUrlAux, if_pos hx] at hj
      have hne : (x.url == j.url) = false := by
        rw [beq_eq_false_iff_ne]
        intro he
        exact (dedupByUrlAux_props t seen).2.1 j hj (he ▸ hx)
      simp only [List.find?_cons, hne]
      exact ih seen j hj
    · simp only [dedupByUrlAux, if_neg hx] at hj
      rcases List.mem_cons.mp hj with h | h
      · subst h
        simp [List.find?_cons]
      · have hne : (x.url == j.url) = false := by
          rw [beq_eq_false_iff_ne]
          intro he
          exact (dedupByUrlAux_props t (x.url :: seen)).2.1 j h
            (he ▸ List.mem_cons_self _ _)
        simp only [List.find?_cons, hne]
        exact ih _ j h

/-- Structural facts about the epsog url de-duplication: the output is a
sublist of the stripped input, every kept url is non-empty and avoids the
seen set, and the output is duplicate-free. -/
theorem dedupUrlsAux_props :
    ∀ (l : List String) (seen : List String),
      List.Sublist (dedupUrlsAux l seen) (l.map pyStrip)
      ∧ (∀ u ∈ dedupUrlsAux l seen, u ∉ seen ∧ u ≠ "")
      ∧ (dedupUrlsAux l seen).Nodup := by
  intro l
  induction l with
  | nil =>
    intro seen
    refine ⟨by simp [dedupUrlsAux], by simp [dedupUrlsAux], by simp [dedupUrlsAux]⟩
  | cons x t ih =>
    intro seen
    by_cases hx : pyStrip x ≠ "" ∧ pyStrip x ∉ seen
    · simp only [dedupUrlsAux, if_pos hx, List.map_cons]
      refine ⟨List.Sublist.cons₂ _ (ih _).1, ?_, ?_⟩
      · intro u hu
        rcases List.mem_cons.mp hu with h | h
        · exact h ▸ ⟨hx.2, hx.1⟩
        · have h2 := (ih (pyStrip x :: seen)).2.1 u h
          exact ⟨fun hs => h2.1 (List.mem_cons_of_mem _ hs), h2.2⟩
      · rw [List.nodup_cons]
        refine ⟨fun hmem => ?_, (ih _).2.2⟩
        exact ((ih (pyStrip x :: seen)).2.1 _ hmem).1 (List.mem_cons_self _ _)
    · simp only [dedupUrlsAux, if_neg hx, List.map_cons]
      exact ⟨List.Sublist.cons _ (ih seen).1, (ih seen).2.1, (ih seen).2.2⟩

/-- Every record the epsog detail loop emits comes from a successfully
fetched item of the input list. -/
theorem epsogLoop_mem :
    ∀ (items : List (String × Option Node)) (j : EpsogJob),
      j ∈ (epsogLoop items).1 →
      ∃ u d, (u, some d) ∈ items ∧ j = epsogExtract d u := by
  intro items
  induction items with
  | nil => intro j hj; simp [epsogLoop] at hj
  | cons it rest ih =>
    intro j hj
    obtain ⟨u, d?⟩ := it
    cases d? with
    | none =>
      simp only [epsogLoop] at hj
      obtain ⟨v, d, hm, he⟩ := ih j hj
      exact ⟨v, d, List.mem_cons_of_mem _ hm, he⟩
    | some d =>
      simp only [epsogLoop] at hj
      rcases List.mem_cons.mp hj with h | h
      · exact ⟨u, d, List.mem_cons_self _ _, h⟩
      · obtain ⟨v, dd, hm, he⟩ := ih j h
        exact ⟨v, dd, List.mem_cons_of_mem _ hm, he⟩

/-- The urls of the emitted records form a sublist of the item urls. -/
theorem epsogLoop_urls :
    ∀ items : List (String × Option Node),
      List.Sublist ((epsogLoop items).1.map EpsogJob.url) (items.map Prod.fst) := by
  intro items
  induction items with
  | nil => simp [epsogLoop]
  | cons it rest ih =>
    obtain ⟨u, d?⟩ := it
    cases d? with
    | none =>
      simp only [epsogLoop, List.map_cons]
      exact List.Sublist.cons u ih
    | some d =>
      simp only [epsogLoop, List.map_cons, epsogExtract_url]
      exact List.Sublist.cons₂ u ih

/-- An accepted ignitis record has a truthy title and a non-empty url
(the acceptance test of line 72). -/
theorem ignitisParseLink_some {href text : String} {j : IgnitisJob}
    (h : ignitisParseLink href text = some j) :
    (∃ t, j.title = some t ∧ t ≠ "") ∧ j.url ≠ "" := by
  unfold ignitisParseLink at h
  split at h
  · rename_i hc
    cases h
    cases ht : (ignitisAssemble href text).title with
    | none => rw [ht] at hc; simp [pyTruthyOpt] at hc
    | some t =>
      rw [ht] at hc
      have hne : t ≠ "" := by
        have := hc.1
        simp [pyTruthyOpt] at this
        exact this
      exact ⟨⟨t, rfl, hne⟩, hc.2⟩
  · cases h

/-- C1 counterexample: an epsog detail page with no `h1` element yields a
record with an absent title, and `epsog_scraper` still appends it — the
result collection of one such item is exactly one record whose title is
`none`. -/
theorem C1_counterexample :
    (epsogRun ["https://jobs.smartrecruiters.com/EPSOG/a"]
        (fun _ => some (Node.elem "html" [] [Node.text "aprasymo tekstas cia"]))).map
      EpsogJob.title = [none] := by decide

/-- C1 amended: every record of `ignitis_scraper` has a non-empty title
and a non-empty url (records missing either are dropped, lines 71-73);
every record of `epsog_scraper` has a non-empty url (discovery drops empty
hrefs, line 129), but epsog records are appended without any title
validation. -/
theorem C1_amended :
    (∀ (links : List (String × String)) (j : IgnitisJob),
      j ∈ ignitisScraperCore links →
      (∃ t, j.title = some t ∧ t ≠ "") ∧ j.url ≠ "")
    ∧ (∀ (hrefs : List String) (fetch : String → Option Node) (j : EpsogJob),
      j ∈ epsogRun hrefs fetch → j.url ≠ "") := by
  constructor
  · intro links j hj
    have hj2 : j ∈ ignitisAccepted links :=
      (dedupByUrlAux_props (ignitisAccepted links) []).1.subset hj
    obtain ⟨pr, _, hpr⟩ := List.mem_filterMap.mp hj2
    exact ignitisParseLink_some hpr
  · intro hrefs fetch j hj
    obtain ⟨u, d, hmem, he⟩ := epsogLoop_mem _ j hj
    subst he
    obtain ⟨v, hv, hvu⟩ := List.mem_map.mp hmem
    have hveq : v = u := congrArg Prod.fst hvu
    rw [epsogExtract_url, ← hveq]
    exact ((dedupUrlsAux_props hrefs []).2.1 v hv).2

/-- C1 witness: a concrete ignitis anchor produces an accepted record with
a non-empty title and url. -/
theorem C1_witness :
    (∃ t, ({ url := "u", title := some "Test Engineer", company_tag := none,
             location := some "X", work_type := none,
             salary := none } : IgnitisJob).title = some t ∧ t ≠ "")
    ∧ ({ url := "u", title := some "Test Engineer", company_tag := none,
         location := some "X", work_type := none,
         salary := none } : IgnitisJob).url ≠ "" :=
  C1_amended.1 [("u", "Test Engineer|X")] _ (by decide)

/-- One unfolding step of the claim-side record de-duplication. -/
theorem specDedupByUrl_cons (j : IgnitisJob) (rest : List IgnitisJob) :
    specDedupByUrl (j :: rest)
      = j :: specDedupByUrl (rest.filter (fun x => decide (x.url ≠ j.url))) := by
  simp [specDedupByUrl]

/-- One unfolding step of the claim-side url de-duplication. -/
theorem specDedupUrls_cons (u : String) (rest : List String) :
    specDedupUrls (u :: rest)
      = u :: specDedupUrls (rest.filter (fun v => decide (v ≠ u))) := by
  simp [specDedupUrls]

/-- The code's seen-set de-duplication of records equals the claim's
keep-first-occurrence de-duplication, applied to the records whose url is
not already seen. -/
theorem dedupByUrlAux_eq_spec :
    ∀ (l : List IgnitisJob) (seen : List String),
      dedupByUrlAux l seen
        = specDedupByUrl (l.filter (fun x => decide (x.url ∉ seen))) := by
  intro l
  induction l with
  | nil => intro seen; simp [dedupByUrlAux, specDedupByUrl]
  | cons x t ih =>
    intro seen
    by_cases hx : x.url ∈ seen
    · have hpx : decide (x.url ∉ seen) = false := by simp [hx]
      simp only [dedupByUrlAux, if_pos hx, List.filter_cons, hpx]
      simp only [Bool.false_eq_true, if_false]
      exact ih seen
    · have hpx : decide (x.url ∉ seen) = true := by simp [hx]
      simp only [dedupByUrlAux, if_neg hx, List.filter_cons, hpx, if_true]
      rw [specDedupByUrl_cons]
      congr 1
      rw [ih (x.url :: seen)]
      congr 1
      rw [List.filter_filter]
      apply List.filter_congr
      intro y _
      by_cases h1 : y.url = x.url <;> by_cases h2 : y.url ∈ seen <;>
        simp [h1, h2]

/-- The code's seen-set de-duplication of stripped urls equals the claim's
keep-first-occurrence de-duplication of the non-empty unseen stripped
urls. -/
theorem dedupUrlsAux_eq_spec :
    ∀ (l seen : List String),
      dedupUrlsAux l seen
        = specDedupUrls ((l.map pyStrip).filter
            (fun u => decide (u ≠ "") && decide (u ∉ seen))) := by
  intro l
  induction l with
  | nil => intro seen; simp [dedupUrlsAux, specDedupUrls]
  | cons x t ih =>
    intro seen
    by_cases hx : pyStrip x ≠ "" ∧ pyStrip x ∉ seen
    · have hpx : (decide (pyStrip x ≠ "") && decide (pyStrip x ∉ seen)) = true := by
        simp [hx.1, hx.2]
      simp only [dedupUrlsAux, if_pos hx, List.map_cons, List.filter_cons, hpx, if_true]
      rw [specDedupUrls_cons]
      congr 1
      rw [ih (pyStrip x :: seen)]
      congr 1
      rw [List.filter_filter]
      apply List.filter_congr
      intro u _
      by_cases h1 : u = pyStrip x <;> by_cases h2 : u ∈ seen <;>
        by_cases h3 : u = "" <;> simp [h1, h2, h3]
    · have hpx : (decide (pyStrip x ≠ "") && decide (pyStrip x ∉ seen)) = false := by
        rw [Bool.eq_false_iff]
        simp only [ne_eq, Bool.and_eq_true, decide_eq_true_eq]
        exact fun h => hx ⟨h.1, h.2⟩
      simp only [dedupUrlsAux, if_neg hx, List.map_cons, List.filter_cons, hpx]
      simp only [Bool.false_eq_true, if_false]
      exact ih seen

/-- Every record of the input list is represented in the de-duplicated
output by a record carrying its url (unless that url was already seen):
no url is dropped entirely. -/
theorem dedupByUrlAux_covers :
    ∀ (l : List IgnitisJob) (seen : List String) (x : IgnitisJob), x ∈ l →
      x.url ∈ seen ∨ ∃ j ∈ dedupByUrlAux l seen, j.url = x.url := by
  intro l
  induction l with
  | nil => intro seen x hx; simp at hx
  | cons y t ih =>
    intro seen x hx
    by_cases hy : y.url ∈ seen
    · simp only [dedupByUrlAux, if_pos hy]
      rcases List.mem_cons.mp hx with h | h
      · exact Or.inl (h ▸ hy)
      · exact ih seen x h
    · simp only [dedupByUrlAux, if_neg hy]
      rcases List.mem_cons.mp hx with h | h
      · exact Or.inr ⟨y, List.mem_cons_self _ _, by rw [h]⟩
      · rcases ih (y.url :: seen) x h with hseen | ⟨j, hj, hju⟩
        · rcases List.mem_cons.mp hseen with h1 | h1
          · exact Or.inr ⟨y, List.mem_cons_self _ _, h1.symm⟩
          · exact Or.inl h1
        · exact Or.inr ⟨j, List.mem_cons_of_mem _ hj, hju⟩

/-- Every href's stripped url is represented in the discovered url list
(unless it is empty or already seen): no url is dropped entirely. -/
theorem dedupUrlsAux_covers :
    ∀ (l seen : List String) (h : String), h ∈ l →
      pyStrip h = "" ∨ pyStrip h ∈ seen ∨ pyStrip h ∈ dedupUrlsAux l seen := by
  intro l
  induction l with
  | nil => intro seen h hx; simp at hx
  | cons y t ih =>
    intro seen h hx
    by_cases hy : pyStrip y ≠ "" ∧ pyStrip y ∉ seen
    · simp only [dedupUrlsAux, if_pos hy]
      rcases List.mem_cons.mp hx with h1 | h1
      · subst h1
        exact Or.inr (Or.inr (List.mem_cons_self _ _))
      · rcases ih (pyStrip y :: seen) h h1 with he | hs | hd
        · exact Or.inl he
        · rcases List.mem_cons.mp hs with h3 | h3
          · exact Or.inr (Or.inr (by rw [h3]; exact List.mem_cons_self _ _))
          · exact Or.inr (Or.inl h3)
        · exact Or.inr (Or.inr (List.mem_cons_of_mem _ hd))
    · simp only [dedupUrlsAux, if_neg hy]
      rcases List.mem_cons.mp hx with h1 | h1
      · subst h1
        by_cases he : pyStrip h = ""
        · exact Or.inl he
        · refine Or.inr (Or.inl ?_)
          by_contra hn
          exact hy ⟨he, hn⟩
      · exact ih seen h h1

/-- The epsog detail loop over the fetch outcomes of a url list keeps, in
order, exactly the records of the urls whose fetch succeeded. -/
theorem epsogCore_map_fetch :
    ∀ (us : List String) (fetch : String → Option Node),
      epsogCore (us.map (fun u => (u, fetch u)))
        = us.filterMap (fun u => (fetch u).map (fun d => epsogExtract d u)) := by
  intro us fetch
  induction us with
  | nil => simp [epsogCore, epsogLoop]
  | cons u t ih =>
    cases hf : fetch u with
    | none =>
      simp only [List.map_cons, List.filterMap_cons, hf, epsogCore, epsogLoop,
        Option.map_none] at ih ⊢
      exact ih
    | some d =>
      simp only [epsogCore] at ih
      simp [List.map_cons, List.filterMap_cons, hf, epsogCore, epsogLoop, ih]

/-- C2: no two records of a result collection share a url, and
de-duplication is first-occurrence-wins in discovery order. For ignitis,
the collection equals the claim's keep-first-occurrence de-duplication of
the accepted records; it is an order-preserving sublist of them, each kept
record is the first accepted record with its url, and every accepted
record's url is represented. For epsog, the discovered url list equals the
claim's keep-first-occurrence de-duplication of the non-empty stripped
hrefs, in discovery order, with every non-empty href url represented; the
run keeps, in discovery order, exactly one record per discovered url whose
fetch succeeded. -/
theorem C2_dedup :
    (∀ links : List (String × String),
      ignitisScraperCore links = specDedupByUrl (ignitisAccepted links)
      ∧ ((ignitisScraperCore links).map IgnitisJob.url).Nodup
      ∧ List.Sublist (ignitisScraperCore links) (ignitisAccepted links)
      ∧ (∀ j ∈ ignitisScraperCore links,
          (ignitisAccepted links).find? (fun y => y.url == j.url) = some j)
      ∧ (∀ x ∈ ignitisAccepted links, ∃ j ∈ ignitisScraperCore links, j.url = x.url))
    ∧ (∀ hrefs : List String,
      epsogDiscover hrefs
          = specDedupUrls ((hrefs.map pyStrip).filter (fun u => decide (u ≠ "")))
      ∧ (epsogDiscover hrefs).Nodup
      ∧ List.Sublist (epsogDiscover hrefs) (hrefs.map pyStrip)
      ∧ (∀ h ∈ hrefs, pyStrip h ≠ "" → pyStrip h ∈ epsogDiscover hrefs))
    ∧ (∀ (hrefs : List String) (fetch : String → Option Node),
      epsogRun hrefs fetch
          = (epsogDiscover hrefs).filterMap
              (fun u => (fetch u).map (fun d => epsogExtract d u))
      ∧ ((epsogRun hrefs fetch).map EpsogJob.url).Nodup
      ∧ List.Sublist ((epsogRun hrefs fetch).map EpsogJob.url) (epsogDiscover hrefs)
      ∧ (∀ u d, u ∈ epsogDiscover hrefs → fetch u = some d →
          epsogExtract d u ∈ epsogRun hrefs fetch)) := by
  refine ⟨?_, ?_, ?_⟩
  · intro links
    refine ⟨?_, (dedupByUrlAux_props _ []).2.2, (dedupByUrlAux_props _ []).1,
      fun j hj => dedupByUrlAux_first _ [] j hj, ?_⟩
    · show dedupByUrlAux (ignitisAccepted links) [] = _
      rw [dedupByUrlAux_eq_spec]
      congr 1
      have h1 : ∀ x ∈ ignitisAccepted links,
          decide (x.url ∉ ([] : List String)) = (fun _ : IgnitisJob => true) x := by
        intro x _
        simp
      rw [List.filter_congr h1, List.filter_true]
    · intro x hx
      rcases dedupByUrlAux_covers (ignitisAccepted links) [] x hx with h | h
      · simp at h
      · exact h
  · intro hrefs
    refine ⟨?_, (dedupUrlsAux_props _ _).2.2, (dedupUrlsAux_props _ _).1, ?_⟩
    · show dedupUrlsAux hrefs [] = _
      rw [dedupUrlsAux_eq_spec]
      congr 1
      apply List.filter_congr
      intro u _
      simp
    · intro h hh hne
      rcases dedupUrlsAux_covers hrefs [] h hh with he | hs | hd
      · exact absurd he hne
      · simp at hs
      · exact hd
  · intro hrefs fetch
    have hrun : epsogRun hrefs fetch
        = (epsogDiscover hrefs).filterMap
            (fun u => (fetch u).map (fun d => epsogExtract d u)) :=
      epsogCore_map_fetch (epsogDiscover hrefs) fetch
    have hu := epsogLoop_urls ((epsogDiscover hrefs).map (fun u => (u, fetch u)))
    have hmap : (((epsogDiscover hrefs).map (fun u => (u, fetch u))).map Prod.fst)
        = epsogDiscover hrefs := by
      simp [Function.comp_def]
    rw [hmap] at hu
    refine ⟨hrun, List.Nodup.sublist hu (dedupUrlsAux_props hrefs []).2.2, hu, ?_⟩
    intro u d hu2 hd
    rw [hrun]
    exact List.mem_filterMap.mpr ⟨u, hu2, by simp [hd]⟩

/-- C2 witness: with two anchors sharing a url, the kept record is the
first accepted record with that url. -/
theorem C2_witness :
    (ignitisAccepted [("u1", "abc Dev|Vilnius"), ("u1", "abc Kitas|Kaunas"),
        ("u2", "Test Engineer|Ryga")]).find?
      (fun y => y.url == ({ url := "u1", title := some "Dev",
                            company_tag := some "abc", location := some "Vilnius",
                            work_type := none, salary := none } : IgnitisJob).url)
      = some { url := "u1", title := some "Dev", company_tag := some "abc",
               location := some "Vilnius", work_type := none, salary := none } :=
  (C2_dedup.1 [("u1", "abc Dev|Vilnius"), ("u1", "abc Kitas|Kaunas"),
    ("u2", "Test Engineer|Ryga")]).2.2.2.1 _ (by decide)

/-- C3: a raising item is item-local: the detail loop on any item list
with one failing item yields exactly the concatenation of the collections
of the surrounding items, and on a list of all-successful items it yields
every extracted record in order (the loop itself is total — it never
raises). -/
theorem C3_isolation :
    (∀ (pre post : List (String × Option Node)) (u : String),
      epsogCore (pre ++ (u, none) :: post) = epsogCore pre ++ epsogCore post)
    ∧ (∀ items : List (String × Node),
      epsogCore (items.map (fun it => (it.1, some it.2)))
        = items.map (fun it => epsogExtract it.2 it.1)) := by
  constructor
  · intro pre post u
    induction pre with
    | nil => simp [epsogCore, epsogLoop]
    | cons it rest ih =>
      obtain ⟨v, d?⟩ := it
      cases d? with
      | none => simpa [epsogCore, epsogLoop] using ih
      | some d => simp [epsogCore, epsogLoop] at ih ⊢; exact ih
  · intro items
    induction items with
    | nil => simp [epsogCore, epsogLoop]
    | cons it rest ih =>
      obtain ⟨v, d⟩ := it
      simp [epsogCore, epsogLoop] at ih ⊢
      exact ih

/-- C4 counterexample: after the last (here: only) successful detail
fetch the loop still sleeps — the trace ends with a pacing delay, not
with the fetch, contradicting the claim that no delay follows the last
detail fetch. -/
theorem C4_counterexample :
    epsogTrace [("https://jobs.smartrecruiters.com/EPSOG/a", some (Node.text ""))]
        = [Event.fetch "https://jobs.smartrecruiters.com/EPSOG/a", Event.sleep]
      ∧ [Event.fetch "https://jobs.smartrecruiters.com/EPSOG/a", Event.sleep]
        ≠ [Event.fetch "https://jobs.smartrecruiters.com/EPSOG/a"] :=
  ⟨rfl, by decide⟩

/-- The events one item contributes to the trace: a fetch attempt, and a
pacing delay exactly when its processing succeeded. -/
def itemEvents : String × Option Node → List Event
  | (u, none) => [Event.fetch u]
  | (u, some _) => [Event.fetch u, Event.sleep]

/-- C4 amended: the pacing delay runs immediately after each successfully
processed item — including the last one — and never before it: no delay
precedes the first fetch, a failing item gets no delay, and the trace is
exactly the per-item fetch/sleep blocks in order. -/
theorem C4_amended (items : List (String × Option Node)) :
    epsogTrace items = (items.map itemEvents).flatten
    ∧ (∀ (u : String) (d : Option Node) (rest : List (String × Option Node)),
      items = (u, d) :: rest → (epsogTrace items).head? = some (Event.fetch u)) := by
  constructor
  · induction items with
    | nil => simp [epsogTrace, epsogLoop]
    | cons it rest ih =>
      obtain ⟨u, d?⟩ := it
      cases d? with
      | none => simp [epsogTrace, epsogLoop, itemEvents] at ih ⊢; exact ih
      | some d => simp [epsogTrace, epsogLoop, itemEvents] at ih ⊢; exact ih
  · intro u d rest he
    subst he
    cases d with
    | none => rfl
    | some dd => rfl

/-- C4 witness: a trace starts with the first fetch (no leading delay). -/
theorem C4_witness :
    (epsogTrace [("a", none), ("b", some (Node.text ""))]).head?
      = some (Event.fetch "a") :=
  (C4_amended [("a", none), ("b", some (Node.text ""))]).2 "a" none
    [("b", some (Node.text ""))] rfl

/-- Length of the Python slice `s[:n]`: the minimum of `n` and the string
length. -/
theorem pyTake_length (n : Nat) (s : String) : (pyTake n s).length = min n s.length := by
  have h : (pyTake n s).length = (s.toList.take n).length := rfl
  rw [h, List.length_take]
  rfl

/-- C9: every stored description fragment has at most 150 characters; a
matched section whose text exceeds 150 characters contributes a fragment
of exactly 150 characters (its truncation); the description joins the
collected fragments with `" | "` and is absent exactly when none is
collected. -/
theorem C9_truncation (doc : Node) :
    (∀ f ∈ descFragments doc, f.length ≤ 150)
    ∧ (∀ h ∈ descHeadings, ∀ e, sectionNextElem doc h = some e →
      150 < (getTextStrip e).length →
      (pyTake 150 (getTextStrip e)).length = 150
        ∧ pyTake 150 (getTextStrip e) ∈ descFragments doc)
    ∧ (descFragments doc = [] → epsogDescription doc = none)
    ∧ (descFragments doc ≠ [] →
      epsogDescription doc = some (String.intercalate " | " (descFragments doc))) := by
  refine ⟨?_, ?_, ?_, ?_⟩
  · intro f hf
    obtain ⟨h, _, hfo⟩ := List.mem_filterMap.mp hf
    unfold descFragOf at hfo
    split at hfo
    · cases hfo
    · rename_i e _
      split at hfo
      · cases hfo
        rw [pyTake_length]
        exact Nat.min_le_left _ _
      · cases hfo
  · intro h hh e he hlen
    have h1 : getTextStrip e ≠ "" := by
      intro h0
      rw [h0] at hlen
      simp at hlen
    have h2 : 20 < (getTextStrip e).length := by omega
    refine ⟨by rw [pyTake_length]; omega, ?_⟩
    exact List.mem_filterMap.mpr ⟨h, hh, by simp [descFragOf, he, h1, h2]⟩
  · intro hd
    simp [epsogDescription, hd]
  · intro hd
    simp [epsogDescription, hd]

set_option maxRecDepth 8000 in
/-- C9 witness: a section of 160 characters is stored as its 150-character
truncation. -/
theorem C9_witness :
    (pyTake 150 (getTextStrip
        (Node.elem "p" [] [Node.text (String.mk (List.replicate 160 'a'))]))).length = 150
    ∧ pyTake 150 (getTextStrip
          (Node.elem "p" [] [Node.text (String.mk (List.replicate 160 'a'))]))
        ∈ descFragments (Node.elem "body" []
            [Node.elem "h2" [] [Node.text "Darbo aprašymas"],
             Node.elem "p" [] [Node.text (String.mk (List.replicate 160 'a'))]]) :=
  (C9_truncation (Node.elem "body" []
      [Node.elem "h2" [] [Node.text "Darbo aprašymas"],
       Node.elem "p" [] [Node.text (String.mk (List.replicate 160 'a'))]])).2.1
    "Darbo aprašymas" (by decide) _ (by rfl) (by decide)
